import Mathlib

set_option linter.unusedVariables false
set_option maxRecDepth 100000

/-!
Verification development for the social-scheduler job scheduling and
execution engine.  The JavaScript source (src/app.js, src/utils/validators.js,
src/services/content-processor.js, src/config/scheduler.js) is shallowly
embedded: the mutable application object becomes an explicit `AppState`,
JavaScript `Map`s become association lists, external collaborators
(file system, sharp image pipeline, Meta API client, moment/node-cron
parsing) become oracle functions supplied as parameters, and thrown
exceptions become `Except` values.
-/

namespace SSched

/-! ## JavaScript basics: truthiness and object/Map association lists -/

/-- JavaScript truthiness for an optional string: `undefined` and `""` are falsy. -/
def truthy : Option String → Bool
  | none => false
  | some s => s ≠ ""

/-- Lookup in an association list (JS `Map.get` / object property read). -/
def lookupA {α : Type} (l : List (String × α)) (k : String) : Option α :=
  match l.find? (fun kv => kv.1 = k) with
  | some kv => some kv.2
  | none => none

/-- JS `Map.set` / object property assignment: replace in place if the key
exists (keeping its position, as JS does), else append. -/
def setA {α : Type} (l : List (String × α)) (k : String) (v : α) : List (String × α) :=
  match l with
  | [] => [(k, v)]
  | kv :: rest => if kv.1 = k then (k, v) :: rest else kv :: setA rest k v

/-- JS `Map.delete`: remove the binding for `k`. -/
def deleteA {α : Type} (l : List (String × α)) (k : String) : List (String × α) :=
  l.filter (fun kv => kv.1 ≠ k)

/-- Keys of an association list, in order. -/
def keysA {α : Type} (l : List (String × α)) : List String :=
  l.map Prod.fst

/-- A JSON-ish value as it appears in a post descriptor `variables` map:
either an array of candidate strings or some other (non-array) value. -/
inductive JsVal : Type
  | arr (xs : List String)
  | other
  deriving DecidableEq, Repr

/-! ## Data model: post descriptors (the JobConfig of the spec) -/

/-- A post / recurring-template descriptor, the shape read from
`content/schedule.json` and stored in the registry (src/app.js). -/
structure PostConfig where
  id : Option String
  content : Option String
  file : Option String
  platforms : List String
  images : Option (List String)
  scheduledTime : Option String
  cronPattern : Option String
  timezone : Option String
  priority : Option String
  «variables» : List (String × JsVal)
  deriving DecidableEq, Repr

/-! ## Trigger Converter (src/app.js `dateToCron`, lines 495-503) -/

/-- A JS `Date` object as `dateToCron` observes it: the values returned by
`getMinutes`, `getHours`, `getDate` and `getMonth` (0-based month), which are
the civil components in the process-host timezone. -/
structure JsDate where
  minutes : Nat
  hours : Nat
  date : Nat
  month : Nat
  deriving DecidableEq, Repr

/-- Source `dateToCron(date, timezone)` from src/app.js: builds the five-field cron
expression from the Date's components; the `timezone` parameter is unused in
the source body. -/
def dateToCron (d : JsDate) (timezone : String) : String :=
  toString d.minutes ++ " " ++ toString d.hours ++ " " ++ toString d.date ++
    " " ++ toString (d.month + 1) ++ " *"

/-- An absolute timestamp, abstracted by how it localizes into civil
components in each timezone; `none` means the timestamp cannot be localized
to that timezone identifier. -/
structure Instant where
  localize : String → Option JsDate

/-- Modelled from the spec: the Trigger Converter contract of section 4.1 —
the minute, hour, day-of-month and month fields are pinned to the
timestamp's values localized to the GIVEN timezone, and the conversion
fails with `InvalidTimeSpec` when the timestamp cannot be localized to that
timezone.  No code in src/ implements this localization; `dateToCron` is the
code-side counterpart. -/
def dateToCronSpec (t : Instant) (tz : String) : Except String String :=
  match t.localize tz with
  | none => .error "InvalidTimeSpec"
  | some d => .ok (dateToCron d tz)

/-! ## Retry configuration (src/config/scheduler.js, `retry`) -/

/-- One retry policy entry of `retry.errorTypes` in src/config/scheduler.js. -/
structure RetryPolicy where
  maxAttempts : Nat
  baseDelay : ℚ
  maxDelay : ℚ
  backoffMultiplier : ℚ
  deriving DecidableEq, Repr

/-- Source `retry.errorTypes` from src/config/scheduler.js lines 62-96: the
error-class-specific retry policies (static configuration data). -/
def retryErrorTypes : List (String × RetryPolicy) :=
  [ ("rate_limit", ⟨5, 300000, 1800000, 2⟩),
    ("network_error", ⟨4, 10000, 60000, 2⟩),
    ("authentication_error", ⟨2, 120000, 300000, 3/2⟩),
    ("content_error", ⟨1, 0, 0, 1⟩) ]

/-- Source `retry.global` from src/config/scheduler.js lines 37-43. -/
def retryGlobal : RetryPolicy := ⟨3, 30000, 300000, 2⟩

/-- Modelled from the spec: the backoff schedule of section 4.4, delay for
the k-th retry = base × multiplier^(k−1), capped at the configured maximum
delay.  No code in the execution path (src/app.js) computes this formula;
it only exists as the configuration fields embedded above. -/
def backoffDelay (p : RetryPolicy) (attempt : Nat) : ℚ :=
  min (p.baseDelay * p.backoffMultiplier ^ (attempt - 1)) p.maxDelay

/-! ## Character-level string primitives

The JS string operations used by the content processor and template
substitution (`trim`, `match` with the hashtag/mention regexes, global
`replace`, `split`, first-occurrence `replace`) are implemented over
`List Char` with structural recursion. -/

/-- Character class of the hashtag regex `[a-zA-Z0-9_]`. -/
def isTagChar (c : Char) : Bool :=
  c.isAlpha || c.isDigit || c = '_'

/-- Fuel-driven scanner for the JS regex `/#[a-zA-Z0-9_]+/g`: all matches,
left to right, non-overlapping.  The fuel (instantiated with the input
length, which always suffices since each step consumes at least one
character) keeps the recursion structural so that terms reduce. -/
def scanTagsF : Nat → List Char → List (List Char)
  | _, [] => []
  | 0, _ => []
  | fuel + 1, c :: cs =>
    if c = '#' then
      let run := cs.takeWhile isTagChar
      if run.isEmpty then scanTagsF fuel cs
      else ('#' :: run) :: scanTagsF fuel (cs.drop run.length)
    else scanTagsF fuel cs

/-- All matches of the JS regex `/#[a-zA-Z0-9_]+/g` (the semantics of
`String.prototype.match` with `g`). -/
def scanTags (s : List Char) : List (List Char) :=
  scanTagsF s.length s

/-- Fuel-driven deletion of every hashtag match. -/
def removeTagsF : Nat → List Char → List Char
  | _, [] => []
  | 0, s => s
  | fuel + 1, c :: cs =>
    if c = '#' then
      let run := cs.takeWhile isTagChar
      if run.isEmpty then c :: removeTagsF fuel cs
      else removeTagsF fuel (cs.drop run.length)
    else c :: removeTagsF fuel cs

/-- Source `content.replace(/#[a-zA-Z0-9_]+/g, '')`: delete every hashtag match. -/
def removeTags (s : List Char) : List Char :=
  removeTagsF s.length s

/-- JS `String.prototype.trim` (ASCII whitespace suffices here). -/
def trimL (s : List Char) : List Char :=
  ((s.dropWhile Char.isWhitespace).reverse.dropWhile Char.isWhitespace).reverse

/-- Fuel-driven split on a non-empty literal separator. -/
def splitSepF (sep : List Char) : Nat → List Char → List (List Char)
  | _, [] => [[]]
  | 0, s => [s]
  | fuel + 1, c :: cs =>
    if sep ≠ [] ∧ sep.isPrefixOf (c :: cs) then
      [] :: splitSepF sep fuel ((c :: cs).drop sep.length)
    else
      match splitSepF sep fuel cs with
      | [] => [[c]]
      | t :: ts => (c :: t) :: ts

/-- JS `String.prototype.split` with a non-empty literal separator. -/
def splitSep (sep : List Char) (s : List Char) : List (List Char) :=
  splitSepF sep s.length s

/-- JS global `replace` with a literal (regex-escaped) pattern:
equivalent to split-then-join. -/
def replaceAllL (s pat rep : List Char) : List Char :=
  List.intercalate rep (splitSep pat s)

/-- ECMA-262 GetSubstitution for a string (non-regex) pattern, where the
capture list is empty and named captures are undefined: `$$` yields `$`,
`$&` the matched text, `$` + backquote the text before the match, `$'` the
text after the match; any other `$...` (digits with no captures, `$<`,
lone `$`) passes through literally. -/
def getSubstitution (matched before after : List Char) : List Char → List Char
  | [] => []
  | '$' :: '$' :: rest => '$' :: getSubstitution matched before after rest
  | '$' :: '&' :: rest => matched ++ getSubstitution matched before after rest
  | '$' :: '\x60' :: rest => before ++ getSubstitution matched before after rest
  | '$' :: '\x27' :: rest => after ++ getSubstitution matched before after rest
  | '$' :: c :: rest => '$' :: getSubstitution matched before after (c :: rest)
  | c :: rest => c :: getSubstitution matched before after rest

/-- The split of `s` at the first occurrence of `pat` (JS
`String.prototype.indexOf` search): `some (before, after)` with
`s = before ++ pat ++ after`, or `none` when `pat` does not occur. -/
def findFirst (s pat : List Char) : Option (List Char × List Char) :=
  if pat.isPrefixOf s then some ([], s.drop pat.length)
  else
    match s with
    | [] => none
    | c :: cs => (findFirst cs pat).map (fun p => (c :: p.1, p.2))

/-- JS `String.prototype.replace` with a literal string pattern: only the
FIRST occurrence is replaced, and the replacement string is expanded by
GetSubstitution (so `$&`, `$$`, `$` + backquote and `$'` in the
replacement are substituted, exactly as the engine does even for string
patterns). -/
def replaceFirst (s pat rep : List Char) : List Char :=
  match findFirst s pat with
  | none => s
  | some (before, after) =>
    before ++ getSubstitution pat before after rep ++ after

/-- Source `path.basename`: the part of a path after the last `/`. -/
def jsBasename (p : String) : String :=
  String.mk ((p.data.reverse.takeWhile (fun c => c ≠ '/')).reverse)

/-! ## Content processor (src/services/content-processor.js) -/

/-- The per-platform limits table of the content processor
(`this.platformLimits` in content-processor.js; the fields its code paths
read). -/
structure CPLimits where
  maxTextLength : Nat
  maxHashtags : Nat
  imageMaxSize : Nat
  maxFileSize : Nat
  deriving DecidableEq, Repr

/-- Source `this.platformLimits[platform]` of content-processor.js: defined for
facebook and instagram only. -/
def contentProcessorLimits (platform : String) : Option CPLimits :=
  if platform = "facebook" then some ⟨63206, 30, 4096, 104857600⟩
  else if platform = "instagram" then some ⟨2200, 30, 1080, 31457280⟩
  else none

/-- Source `processHashtags(content, platform)`: for instagram, strip the hashtags
from the body and re-append them lowercased (at most 30) after a blank line;
any other platform keeps the content inline. -/
def processHashtagsL (content : List Char) (platform : String) : List Char :=
  let hashtags := scanTags content
  if platform = "instagram" then
    let contentWithoutHashtags := trimL (removeTags content)
    let cleanHashtags := (hashtags.map (fun t => t.map Char.toLower)).take 30
    if cleanHashtags.isEmpty then contentWithoutHashtags
    else contentWithoutHashtags ++ ('\n' :: '\n' :: List.intercalate [' '] cleanHashtags)
  else content

/-- Source `processMentions(content, platform)`: only logs, returns the content. -/
def processMentionsL (content : List Char) (platform : String) : List Char :=
  content

/-- Source `optimizeForInstagram(content)`: paragraphs longer than 150 characters
get a line break after each sentence (`.replace(/\. /g, '.\n')`). -/
def optimizeForInstagramL (content : List Char) : List Char :=
  let paragraphs := splitSep ('\n' :: ['\n']) content
  let optimizedParagraphs := paragraphs.map (fun paragraph =>
    if paragraph.length > 150 then replaceAllL paragraph ('.' :: [' ']) ('.' :: ['\n'])
    else paragraph)
  List.intercalate ('\n' :: ['\n']) optimizedParagraphs

/-- Source `optimizeForFacebook(content)`: identity. -/
def optimizeForFacebookL (content : List Char) : List Char :=
  content

/-- Source `processTextContent(content, platform)` of content-processor.js:
falsy content yields the empty string; otherwise trim, hashtag and mention
processing, then the platform-specific optimization. -/
def processTextContentL (content : Option String) (platform : String) : List Char :=
  match content with
  | none => []
  | some c =>
    if c = "" then []
    else
      let t := trimL c.data
      let t := processHashtagsL t platform
      let t := processMentionsL t platform
      if platform = "instagram" then optimizeForInstagramL t
      else if platform = "facebook" then optimizeForFacebookL t
      else t

/-- The image record produced by `processImage` (the fields read
downstream); the sharp/fs pipeline itself is an external collaborator. -/
structure ProcessedImage where
  originalPath : String
  processedPath : String
  deriving DecidableEq, Repr

/-- The value of `processedContent[platform]` built by
`processPlatformContent`. -/
structure PlatformContent where
  platform : String
  content : String
  images : List ProcessedImage
  deriving DecidableEq, Repr

/-- The external collaborators the Executor suspends on, plus the clock. -/
structure ExecEnv where
  readTextFile : String → Except String String
  processImage : String → String → Except String ProcessedImage
  postToPlatform : String → String → Option String → Except String String
  now : Nat

/-- Source `processPlatformContent(content, imagePaths, platform)`: unsupported
platforms and over-long processed text throw; image processing errors
propagate. -/
def processPlatformContent (env : ExecEnv) (content : Option String)
    (imagePaths : List String) (platform : String) : Except String PlatformContent :=
  match contentProcessorLimits platform with
  | none => .error ("Unsupported platform: " ++ platform)
  | some limits =>
    let processedText := processTextContentL content platform
    if processedText.length > limits.maxTextLength then
      .error ("Content too long for " ++ platform ++ ": " ++
        toString processedText.length ++ "/" ++ toString limits.maxTextLength ++
        " characters")
    else do
      let processedImages ← imagePaths.mapM (fun ip => env.processImage ip platform)
      .ok ⟨platform, String.mk processedText, processedImages⟩

/-- Source `processContent(content, imagePaths, platforms)`: builds the
platform-keyed object one platform at a time; the first throw aborts the
whole call (and with it every remaining platform). -/
def processContent (env : ExecEnv) (content : Option String)
    (imagePaths : List String) :
    List String → List (String × PlatformContent) →
    Except String (List (String × PlatformContent))
  | [], acc => .ok acc
  | platform :: rest, acc => do
    let pc ← processPlatformContent env content imagePaths platform
    processContent env content imagePaths rest (setA acc platform pc)

/-! ## Application state (the SocialSchedulerApp object of src/app.js) -/

/-- A registered cron job kind, as stored in `this.cronJobs`. -/
inductive JobType : Type
  | scheduled_post
  | recurring_post
  | maintenance
  deriving DecidableEq, Repr

/-- One `this.cronJobs` entry: the node-cron task (a handle), the config and
the kind tag. -/
structure CronEntry where
  job : Nat
  config : PostConfig
  type : JobType
  deriving DecidableEq, Repr

/-- One `this.activeJobs` entry. -/
structure ActiveEntry where
  startTime : Nat
  config : PostConfig
  deriving DecidableEq, Repr

/-- The mutable fields of the application object that the Scheduler,
Executor and Shutdown Coordinator touch.  `armedTimers` is the set of
node-cron tasks that have been `start()`ed and not `stop()`ped — including
tasks no longer referenced from `cronJobs`; `nextHandle` is the next fresh
task handle `cron.schedule` will produce. -/
structure AppState where
  isShuttingDown : Bool
  activeJobs : List (String × ActiveEntry)
  cronJobs : List (String × CronEntry)
  armedTimers : List Nat
  nextHandle : Nat
  deriving DecidableEq, Repr

/-- Per-platform outcome recorded in `results[platform]`. -/
inductive PlatformOutcome : Type
  | success (id : String)
  | failure (error : String)
  deriving DecidableEq, Repr

/-- Projection `r.success` of an outcome record. -/
def PlatformOutcome.isSuccess : PlatformOutcome → Bool
  | .success _ => true
  | .failure _ => false

/-- What one `executePost` invocation reports: skipped by the shutdown
short-circuit, finished with the per-platform outcome object, or aborted by
an exception thrown outside the per-platform try (caught by the outer
catch). -/
inductive ExecOutcome : Type
  | skipped
  | finished (results : List (String × PlatformOutcome)) (allSuccessful : Bool)
  | faulted (error : String)
  deriving DecidableEq, Repr

/-- An `executePost` report: the outcome plus the ordered list of platforms
on which `metaClient.postToPlatform` was actually invoked. -/
structure ExecReport where
  outcome : ExecOutcome
  attempts : List String
  deriving DecidableEq, Repr

/-- The message of the TypeError thrown by
`processedContent[platform].content` when the platform key is absent. -/
def undefinedReadMsg : String :=
  "Cannot read properties of undefined (reading 'content')"

/-- One iteration of the per-platform posting loop of `executePost`
(src/app.js lines 346-363): the try/catch body for a single platform,
storing exactly one entry in `results` (reading an absent key of the
processed-content object throws a TypeError that the catch converts into a
failure entry without a publish attempt). -/
def publishStep (env : ExecEnv) (processed : List (String × PlatformContent))
    (platform : String) (results : List (String × PlatformOutcome))
    (attempts : List String) : List (String × PlatformOutcome) × List String :=
  match lookupA processed platform with
  | none => (setA results platform (.failure undefinedReadMsg), attempts)
  | some platformContent =>
    let imagePath := (platformContent.images.head?).map ProcessedImage.processedPath
    match env.postToPlatform platform platformContent.content imagePath with
    | .ok id => (setA results platform (.success id), attempts ++ [platform])
    | .error e => (setA results platform (.failure e), attempts ++ [platform])

/-- The per-platform posting loop of `executePost` (src/app.js lines
345-363): a failure on one platform never stops the loop. -/
def publishLoop (env : ExecEnv) (processed : List (String × PlatformContent)) :
    List String → List (String × PlatformOutcome) → List String →
    List (String × PlatformOutcome) × List String
  | [], results, attempts => (results, attempts)
  | platform :: rest, results, attempts =>
    let st := publishStep env processed platform results attempts
    publishLoop env processed rest st.1 st.2

/-- The body of `executePost`'s try block up to and including the platform
loop: resolve content (inline, else via the file reader), run the content
processor, then post to every platform.  An `.error` is an exception
escaping to the outer catch. -/
def execCore (env : ExecEnv) (postConfig : PostConfig) :
    Except String (List (String × PlatformOutcome) × List String) := do
  let content ←
    (if truthy postConfig.file && !truthy postConfig.content then
      (env.readTextFile (jsBasename (postConfig.file.getD ""))).map some
    else .ok postConfig.content)
  let processed ← processContent env content (postConfig.images.getD [])
    postConfig.platforms []
  .ok (publishLoop env processed postConfig.platforms [] [])

/-- The one-off removal step of `executePost` (src/app.js lines 374-378):
if the registry holds this job id with type `scheduled_post`, stop its
cron task and delete the registry entry. -/
def removeOneOff (s : AppState) (jobId : String) : AppState :=
  match lookupA s.cronJobs jobId with
  | some entry =>
    if entry.type = .scheduled_post then
      { s with cronJobs := deleteA s.cronJobs jobId,
               armedTimers := s.armedTimers.filter (fun h => h ≠ entry.job) }
    else s
  | none => s

/-- Source `executePost(jobId, postConfig)` of src/app.js (lines 321-389):
shutdown short-circuit, active-set add, the try body (`execCore`), one-off
removal on the non-throwing path, outer catch on a throw, and the `finally`
active-set delete on every exit path. -/
def executePost (env : ExecEnv) (s : AppState) (jobId : String)
    (postConfig : PostConfig) : AppState × ExecReport :=
  if s.isShuttingDown then (s, ⟨.skipped, []⟩)
  else
    let s1 : AppState :=
      { s with activeJobs := setA s.activeJobs jobId ⟨env.now, postConfig⟩ }
    match execCore env postConfig with
    | .error e =>
      ({ s1 with activeJobs := deleteA s1.activeJobs jobId }, ⟨.faulted e, []⟩)
    | .ok (results, attempts) =>
      let allSuccessful := results.all (fun kv => kv.2.isSuccess)
      let s2 := removeOneOff s1 jobId
      ({ s2 with activeJobs := deleteA s2.activeJobs jobId },
        ⟨.finished results allSuccessful, attempts⟩)

/-! ## Scheduler (src/app.js `schedulePost` / `scheduleRecurringPost`) -/

/-- The collaborators `schedulePost` depends on: `new Date(string)` (the
host date parser; `none` is an Invalid Date) and node-cron's validation of
a cron expression inside `cron.schedule` (false makes it throw). -/
structure SchedEnv where
  parseDate : String → Option JsDate
  cronPatternOk : String → Bool
  now : Nat

/-- The job identifier `post_${postConfig.id || Date.now()}`. -/
def postJobId (env : SchedEnv) (postConfig : PostConfig) : String :=
  "post_" ++ (if truthy postConfig.id then postConfig.id.getD "" else toString env.now)

/-- Source `schedulePost(postConfig)` of src/app.js (lines 249-286): convert the
scheduled time to a cron expression, create the node-cron task (unstarted),
`Map.set` the registry entry, then start the task.  Any throw (invalid
date / invalid expression) is caught and the job skipped; the prior entry's
task is never `stop()`ped. -/
def schedulePost (env : SchedEnv) (s : AppState) (postConfig : PostConfig) : AppState :=
  let jobId := postJobId env postConfig
  match postConfig.scheduledTime.bind env.parseDate with
  | none => s
  | some scheduledDate =>
    let cronExpression := dateToCron scheduledDate (postConfig.timezone.getD "UTC")
    if env.cronPatternOk cronExpression then
      let handle := s.nextHandle
      { s with cronJobs := setA s.cronJobs jobId ⟨handle, postConfig, .scheduled_post⟩,
               armedTimers := s.armedTimers ++ [handle],
               nextHandle := handle + 1 }
    else s

/-- Source `scheduleRecurringPost(recurringConfig)` of src/app.js (lines 288-319):
the supplied cron pattern is passed through to `cron.schedule`; an invalid
pattern throws and is caught (job skipped). -/
def scheduleRecurringPost (env : SchedEnv) (s : AppState) (recurringConfig : PostConfig) :
    AppState :=
  let jobId := "recurring_" ++ recurringConfig.id.getD "undefined"
  match recurringConfig.cronPattern with
  | none => s
  | some pattern =>
    if env.cronPatternOk pattern then
      let handle := s.nextHandle
      { s with cronJobs := setA s.cronJobs jobId ⟨handle, recurringConfig, .recurring_post⟩,
               armedTimers := s.armedTimers ++ [handle],
               nextHandle := handle + 1 }
    else s

/-- The `posts` half of `startScheduler`: schedule every post in order. -/
def scheduleAllPosts (env : SchedEnv) (s : AppState) (posts : List PostConfig) : AppState :=
  posts.foldl (schedulePost env) s

/-! ## Shutdown Coordinator (src/app.js `shutdown`, lines 526-569) -/

/-- Stop every cron task registered in `cronJobs` and clear the registry
(shutdown step: the loop of `jobData.job.stop()` plus `cronJobs.clear()`).
Armed tasks no longer referenced from the registry are not stopped. -/
def stopAllCron (s : AppState) : AppState :=
  { s with
    armedTimers := s.armedTimers.filter
      (fun h => !(s.cronJobs.any (fun kv => kv.2.job = h))),
    cronJobs := [] }

/-- The active set as the drain loop observes it after `k` one-second polls:
during each tick the jobs listed by `finishes` remove themselves (their
`finally` blocks run); the coordinator itself removes nothing during the
wait. -/
def activeAfter (finishes : Nat → List String) (init : List (String × ActiveEntry)) :
    Nat → List (String × ActiveEntry)
  | 0 => init
  | k + 1 => (activeAfter finishes init k).filter (fun kv => kv.1 ∉ finishes k)

/-- The drain budget: 30000 ms timeout at a 1000 ms poll interval. -/
def drainTicks : Nat := 30

/-- Source `shutdown()` of src/app.js: idempotent guard, flip the shutdown flag,
stop registered cron jobs, wait up to `drainTicks` polls for active jobs,
then force-clear whatever remains. -/
def shutdown (finishes : Nat → List String) (s : AppState) : AppState :=
  if s.isShuttingDown then s
  else
    let s1 := stopAllCron { s with isShuttingDown := true }
    { s1 with activeJobs := [] }

/-! ## Startup validation (src/utils/validators.js, src/app.js
`loadScheduleConfig`) -/

/-- The result of moment-based `validateDateTime` as `validateSchedulePost`
consumes it (`isValid`, `error`, `warning`; empty string = falsy/absent).
The moment library is an external collaborator, so this is an oracle. -/
structure DTResult where
  isValid : Bool
  error : String
  warning : String
  deriving DecidableEq, Repr

/-- A validation outcome `{ isValid, errors, warnings }`. -/
structure ValidationResult where
  isValid : Bool
  errors : List String
  warnings : List String
  deriving DecidableEq, Repr

/-- The fields of `validators.platformLimits` that `validateTextContent`
reads. -/
structure VLimits where
  maxTextLength : Nat
  maxHashtags : Nat
  deriving DecidableEq, Repr

/-- Source `this.platformLimits[platform]` of validators.js. -/
def validatorsLimits (platform : String) : Option VLimits :=
  if platform = "facebook" then some ⟨63206, 30⟩
  else if platform = "instagram" then some ⟨2200, 30⟩
  else none

/-- Source `extractHashtags(content)` of validators.js. -/
def extractHashtags (content : String) : List String :=
  (scanTags content.data).map String.mk

/-- Source `validateTextContent(content, platform)` of validators.js: returns
`(isValid, error, warnings)`. -/
def validateTextContent (content : String) (platform : String) :
    Bool × String × List String :=
  if content = "" then (false, "Content must be a non-empty string", [])
  else
    match validatorsLimits platform with
    | none => (false, "Unsupported platform: " ++ platform, [])
    | some limits =>
      let errors :=
        if content.length > limits.maxTextLength then
          ["Content too long (" ++ toString content.length ++ "/" ++
            toString limits.maxTextLength ++ " characters)"]
        else []
      let warnings :=
        (if (content.length : ℚ) > (limits.maxTextLength : ℚ) * 9 / 10 then
          ["Content approaching character limit (" ++ toString content.length ++
            "/" ++ toString limits.maxTextLength ++ ")"]
        else []) ++
        (if (extractHashtags content).length > limits.maxHashtags then
          ["Too many hashtags (" ++ toString (extractHashtags content).length ++
            "/" ++ toString limits.maxHashtags ++ "). Excess hashtags may not work."]
        else []) ++
        (if platform = "instagram" && (trimL content.data).isEmpty then
          ["Instagram posts with empty captions may have lower engagement"]
        else [])
      (errors.isEmpty, String.intercalate "; " errors, warnings)

/-- Source `validatePlatforms(platforms)` of validators.js: the fixed valid set is
`[facebook, instagram]`. -/
def validatePlatforms (platforms : List String) : Bool × String :=
  if platforms.isEmpty then (false, "At least one platform must be specified")
  else
    let invalidPlatforms := platforms.filter
      (fun p => !(p = "facebook" || p = "instagram"))
    if invalidPlatforms.isEmpty then (true, "")
    else
      (false, "Invalid platforms: " ++ String.intercalate ", " invalidPlatforms ++
        ". Valid platforms: facebook, instagram")

/-- Source `validateSchedulePost(post, index)` of validators.js: the per-post
errors and warnings, in push order. -/
def validateSchedulePost (dt : String → Option String → DTResult)
    (post : PostConfig) (index : Nat) : List String × List String :=
  let pre := "Post " ++ toString index ++ ": "
  let contentErrs :=
    if !truthy post.content && !truthy post.file then
      [pre ++ "Must have either \"content\" or \"file\" specified"]
    else []
  let contentWarns :=
    if truthy post.content && truthy post.file then
      [pre ++ "Both \"content\" and \"file\" specified, \"content\" will take precedence"]
    else []
  let timeRes :=
    if !truthy post.scheduledTime then
      ([pre ++ "Missing \"scheduledTime\""], [])
    else
      let tv := dt (post.scheduledTime.getD "") post.timezone
      ((if !tv.isValid then [pre ++ tv.error] else []),
       (if tv.warning ≠ "" then [pre ++ tv.warning] else []))
  let platformErrs :=
    if post.platforms.isEmpty then [pre ++ "Must specify at least one platform"]
    else
      let pv := validatePlatforms post.platforms
      if !pv.1 then [pre ++ pv.2] else []
  let contentLenRes :=
    if truthy post.content then
      (post.platforms.map (fun platform =>
        let cv := validateTextContent (post.content.getD "") platform
        ((if !cv.1 then
            ["Post " ++ toString index ++ ", Platform " ++ platform ++ ": " ++ cv.2.1]
          else []),
         cv.2.2))).foldl (fun acc r => (acc.1 ++ r.1, acc.2 ++ r.2)) ([], [])
    else ([], [])
  (contentErrs ++ timeRes.1 ++ platformErrs ++ contentLenRes.1,
   contentWarns ++ timeRes.2 ++ contentLenRes.2)

/-- Global `settings` of schedule.json as the validator reads them. -/
structure ScheduleSettings where
  timezone : Option String
  retryAttempts : Option Int
  retryDelay : Option Int
  deriving DecidableEq, Repr

/-- Source `validateScheduleSettings(settings)` of validators.js (error half; it
produces no warnings). -/
def validateScheduleSettings (vtz : String → Bool) (settings : ScheduleSettings) :
    List String :=
  (match settings.timezone with
   | some tz => if tz ≠ "" && !vtz tz then ["Invalid timezone: " ++ tz] else []
   | none => []) ++
  (match settings.retryAttempts with
   | some n => if n ≠ 0 && n < 0 then ["retryAttempts must be a non-negative number"] else []
   | none => []) ++
  (match settings.retryDelay with
   | some n => if n ≠ 0 && n < 0 then ["retryDelay must be a non-negative number"] else []
   | none => [])

/-- The schedule document (`content/schedule.json`): `none` for `posts`
models a missing / non-array property. -/
structure ScheduleDoc where
  posts : Option (List PostConfig)
  settings : Option ScheduleSettings
  recurring : Option (List PostConfig)
  deriving DecidableEq, Repr

/-- Source `validateScheduleConfig(config)` of validators.js (lines 43-86): only
the `posts` array and the global `settings` are examined; `recurring`
descriptors are not validated. -/
def validateScheduleConfig (dt : String → Option String → DTResult)
    (vtz : String → Bool) (config : Option ScheduleDoc) : ValidationResult :=
  match config with
  | none => ⟨false, ["Schedule config must be a valid object"], []⟩
  | some cfg =>
    match cfg.posts with
    | none => ⟨false, ["Schedule config must contain a \"posts\" array"], []⟩
    | some posts =>
      let emptyWarns :=
        if posts.isEmpty then ["No posts found in schedule config"] else []
      let postResults := posts.enum.map (fun iv => validateSchedulePost dt iv.2 iv.1)
      let postErrs := (postResults.map Prod.fst).flatten
      let postWarns := (postResults.map Prod.snd).flatten
      let settingsErrs :=
        match cfg.settings with
        | some st => validateScheduleSettings vtz st
        | none => []
      let errors := postErrs ++ settingsErrs
      ⟨errors.isEmpty, errors, emptyWarns ++ postWarns⟩

/-- Source `loadScheduleConfig()` of src/app.js (lines 194-224): read the schedule
document, validate it, and throw (aborting startup) when validation fails. -/
def loadScheduleConfig (scheduleData : Except String (Option ScheduleDoc))
    (dt : String → Option String → DTResult) (vtz : String → Bool) :
    Except String (Option ScheduleDoc) := do
  let cfg ← scheduleData
  let validation := validateScheduleConfig dt vtz cfg
  if validation.isValid then .ok cfg
  else .error ("Invalid schedule configuration: " ++
    String.intercalate ", " validation.errors)

/-! ## Template substitution (src/app.js `processTemplate`, lines 407-418) -/

/-- The literal pattern `{key}` built by the template loop. -/
def placeholder (key : String) : List Char :=
  '\x7b' :: (key.data ++ ['\x7d'])

/-- The loop body of `processTemplate` over `Object.entries(variables)`.
`pick i n` models `Math.floor(Math.random() * n)` for the i-th entry; on an
empty candidate array `values[...]` is `undefined` and JS coerces it to the
string `"undefined"` inside `replace`. -/
def processTemplateGo (pick : Nat → Nat → Nat) :
    Nat → List Char → List (String × JsVal) → List Char
  | _, s, [] => s
  | i, s, (key, v) :: rest =>
    match v with
    | .arr values =>
      let randomValue := (values.get? (pick i values.length)).getD "undefined"
      processTemplateGo pick (i + 1)
        (replaceFirst s (placeholder key) randomValue.data) rest
    | .other => processTemplateGo pick (i + 1) s rest

/-- Source `processTemplate(content, variables)` of src/app.js: for each array
valued entry, `content.replace` with the literal pattern (JS `replace`
with a string pattern touches only the first occurrence). -/
def processTemplate (pick : Nat → Nat → Nat) (content : String)
    (vars : List (String × JsVal)) : String :=
  String.mk (processTemplateGo pick 0 content.data vars)

/-! ## Priority erasure (for the noninterference claim) -/

/-- Erase the informational `priority` label of a descriptor. -/
def erasePriority (pc : PostConfig) : PostConfig :=
  { pc with priority := none }

/-- Map the values of an association list. -/
def mapValues {α β : Type} (f : α → β) (l : List (String × α)) : List (String × β) :=
  l.map (fun kv => (kv.1, f kv.2))

/-- Erase the priority label inside an active-set entry. -/
def eraseActive (e : ActiveEntry) : ActiveEntry :=
  { e with config := erasePriority e.config }

/-- Erase the priority label inside a registry entry. -/
def eraseCron (e : CronEntry) : CronEntry :=
  { e with config := erasePriority e.config }

/-- Erase the priority labels stored anywhere in an application state. -/
def eraseState (s : AppState) : AppState :=
  { s with
    activeJobs := mapValues eraseActive s.activeJobs,
    cronJobs := mapValues eraseCron s.cronJobs }

/-! ## Declarative first-occurrence replacement (spec side of C10) -/

/-- Predicate stating `a` is the text before the FIRST occurrence of `pat` in `s` and `b` the
text after it: no occurrence starts earlier. -/
def FirstMatchAt (pat s a b : List Char) : Prop :=
  s = a ++ pat ++ b ∧ ∀ a2 b2, s = a2 ++ pat ++ b2 → a.length ≤ a2.length

/-- Predicate stating `t` is `s` with at most the first occurrence of `pat`
rewritten using replacement string `rep`: either `pat` does not occur and
`t = s`, or exactly the first occurrence is rewritten — the inserted text
being `rep` expanded by the JS GetSubstitution rules (`$$`, `$&`,
`$` + backquote, `$'`) against that match — and all surrounding text kept. -/
def ReplacesFirstSpec (pat rep s t : List Char) : Prop :=
  ((¬ ∃ a b, s = a ++ pat ++ b) ∧ t = s) ∨
  (∃ a b, FirstMatchAt pat s a b ∧ t = a ++ getSubstitution pat a b rep ++ b)

/-- The declarative reading of the template-substitution loop: entries are
processed sequentially in map order; an array-valued entry rewrites at most
the first occurrence of its `\x7bname\x7d` placeholder in the CURRENT string —
the replacement string being an element of the candidate array when it is
non-empty and the literal string `undefined` when it is empty, inserted
after GetSubstitution expansion of any `$$`/`$&`/`$` + backquote/`$'`
patterns it contains — and a non-array entry leaves the string untouched. -/
inductive TemplateChain (pick : Nat → Nat → Nat) :
    Nat → List Char → List (String × JsVal) → List Char → Prop
  | nil (i : Nat) (s : List Char) : TemplateChain pick i s [] s
  | arrStep (i : Nat) (s u t : List Char) (key : String) (values : List String)
      (rest : List (String × JsVal)) (chosen : String)
      (hchoose : (values ≠ [] ∧ chosen ∈ values) ∨ (values = [] ∧ chosen = "undefined"))
      (hrep : ReplacesFirstSpec (placeholder key) chosen.data s u)
      (hrest : TemplateChain pick (i + 1) u rest t) :
      TemplateChain pick i s ((key, .arr values) :: rest) t
  | skipStep (i : Nat) (s t : List Char) (key : String) (rest : List (String × JsVal))
      (hrest : TemplateChain pick (i + 1) s rest t) :
      TemplateChain pick i s ((key, .other) :: rest) t

/-! ## Concrete fixtures used by the claim evaluations and witnesses -/

/-- A one-off post configuration: inline content, facebook only. -/
def pcC1 : PostConfig :=
  ⟨some "j1", some "hello", none, ["facebook"], none,
   some "2024-12-15T09:00:00", none, none, some "high", []⟩

/-- An environment in which every publish attempt fails with a network
error. -/
def envC1 : ExecEnv :=
  ⟨fun _ => .error "ENOENT", fun p _ => .ok ⟨p, p⟩,
   fun _ _ _ => .error "Network error: socket hang up", 111⟩

/-- Registry state holding the armed one-off job `post_j1`. -/
def sC1 : AppState := ⟨false, [], [("post_j1", ⟨0, pcC1, .scheduled_post⟩)], [0], 1⟩

/-- A timestamp whose civil components differ between UTC and New York and
which cannot be localized to any other identifier. -/
def instC2 : Instant :=
  ⟨fun tz =>
    if tz = "UTC" then some ⟨0, 12, 1, 0⟩
    else if tz = "America/New_York" then some ⟨0, 7, 1, 0⟩
    else none⟩

/-- A post with inline content and a gif image, targeting both platforms. -/
def pcC3 : PostConfig :=
  ⟨some "cx3", some "hi", none, ["facebook", "instagram"], some ["content/images/anim.gif"],
   some "2024-12-15T09:00:00", none, none, none, []⟩

/-- An environment in which image processing succeeds for facebook but
throws for instagram (gif is not an instagram-supported format —
content-processor.js line 210) and publishing always succeeds. -/
def envC3 : ExecEnv :=
  ⟨fun _ => .error "ENOENT",
   fun ip platform =>
     if platform = "instagram" then .error "Unsupported format for instagram: gif"
     else .ok ⟨ip, ip ++ "_fb.jpg"⟩,
   fun _ _ _ => .ok "fbid_1", 200⟩

/-- Registry state holding the armed one-off job `post_cx3`. -/
def sC3 : AppState := ⟨false, [], [("post_cx3", ⟨0, pcC3, .scheduled_post⟩)], [0], 1⟩

/-- A post for the C3 witness: inline content, both platforms. -/
def pcW3 : PostConfig :=
  ⟨some "w3", some "hi", none, ["facebook", "instagram"], none,
   some "2024-12-15T09:00:00", none, none, none, []⟩

/-- An all-success publish environment. -/
def envW3 : ExecEnv :=
  ⟨fun _ => .error "ENOENT", fun p _ => .ok ⟨p, p⟩, fun _ _ _ => .ok "id_1", 300⟩

/-- Registry state holding the armed one-off job `post_w3`. -/
def sW3 : AppState := ⟨false, [], [("post_w3", ⟨0, pcW3, .scheduled_post⟩)], [0], 1⟩

/-- Prior and replacement configurations for the re-scheduling scenario. -/
def pcC4old : PostConfig :=
  ⟨some "j", some "old text", none, ["facebook"], none,
   some "2024-12-15T09:00:00", none, none, none, []⟩

/-- The replacement configuration with the same id `j`. -/
def pcC4new : PostConfig :=
  ⟨some "j", some "new text", none, ["facebook"], none,
   some "2024-12-15T09:30:00", none, none, none, []⟩

/-- A scheduling environment whose date parser and cron validation accept
everything. -/
def envC4 : SchedEnv := ⟨fun _ => some ⟨30, 9, 15, 11⟩, fun _ => true, 999⟩

/-- Registry already holding `post_j` with armed task 7. -/
def sC4 : AppState := ⟨false, [], [("post_j", ⟨7, pcC4old, .scheduled_post⟩)], [7], 8⟩

/-- A one-off post whose content file is missing. -/
def pcC5 : PostConfig :=
  ⟨some "cx5", none, some "missing.txt", ["facebook"], none,
   some "2024-12-15T09:00:00", none, none, none, []⟩

/-- An environment whose file reader throws. -/
def envC5 : ExecEnv :=
  ⟨fun _ => .error "ENOENT: no such file or directory",
   fun p _ => .ok ⟨p, p⟩, fun _ _ _ => .ok "id_1", 500⟩

/-- Registry state holding the armed one-off job `post_cx5`. -/
def sC5 : AppState := ⟨false, [], [("post_cx5", ⟨3, pcC5, .scheduled_post⟩)], [3], 4⟩

/-- A trivial datetime oracle that accepts every timestamp. -/
def dtOk : String → Option String → DTResult := fun _ _ => ⟨true, "", ""⟩

/-- A trivial timezone-name oracle. -/
def vtzOk : String → Bool := fun _ => true

/-- A post carrying a trigger pattern but no scheduled time. -/
def pcC7cron : PostConfig :=
  ⟨some "c7", some "hi", none, ["facebook"], none, none,
   some "0 9 * * *", none, none, []⟩

/-- Document with the trigger-pattern-only post. -/
def docC7cron : ScheduleDoc := ⟨some [pcC7cron], none, none⟩

/-- A recurring descriptor with an empty platform list. -/
def recC7bad : PostConfig :=
  ⟨some "r7", some "hi", none, [], none, none, some "0 9 * * *", none, none, []⟩

/-- Document whose only defect sits in the unvalidated recurring list. -/
def docC7rec : ScheduleDoc := ⟨some [], none, some [recC7bad]⟩

/-- A defect-free post for the C7 witness. -/
def pcW7 : PostConfig :=
  ⟨some "w7", some "hi", none, ["facebook"], none,
   some "2024-12-15T09:00:00", none, none, none, []⟩

/-- Document containing only the defect-free post. -/
def docW7 : ScheduleDoc := ⟨some [pcW7], none, none⟩

/-- Two post configurations identical except for the priority label. -/
def pcC9high : PostConfig :=
  ⟨some "p9", some "hello", none, ["facebook"], none,
   some "2024-12-15T09:00:00", none, none, some "high", []⟩

/-- The same configuration labelled low priority. -/
def pcC9low : PostConfig :=
  ⟨some "p9", some "hello", none, ["facebook"], none,
   some "2024-12-15T09:00:00", none, none, some "low", []⟩

/-- An empty starting state. -/
def sEmpty : AppState := ⟨false, [], [], [], 0⟩

/-- The index function modelling a random source that always picks 0. -/
def pick0 : Nat → Nat → Nat := fun _ _ => 0

/-! ## Association-list lemmas -/

theorem lookupA_deleteA {α : Type} (l : List (String × α)) (k : String) :
    lookupA (deleteA l k) k = none := by
  induction l with
  | nil => rfl
  | cons kv rest ih =>
    by_cases h : kv.1 = k
    · simpa [deleteA, List.filter_cons, h] using ih
    · simpa [deleteA, List.filter_cons, h, lookupA, List.find?_cons] using ih

theorem lookupA_setA_self {α : Type} (l : List (String × α)) (k : String) (v : α) :
    lookupA (setA l k v) k = some v := by
  induction l with
  | nil => simp [setA, lookupA, List.find?_cons]
  | cons kv rest ih =>
    by_cases h : kv.1 = k
    · simp [setA, h, lookupA, List.find?_cons]
    · simpa [setA, h, lookupA, List.find?_cons] using ih

theorem keysA_setA {α : Type} (l : List (String × α)) (k : String) (v : α) :
    keysA (setA l k v) = if k ∈ keysA l then keysA l else keysA l ++ [k] := by
  induction l with
  | nil => simp [setA, keysA]
  | cons kv rest ih =>
    by_cases h : kv.1 = k
    · simp [setA, h, keysA]
    · have hne : ¬(k = kv.1) := fun he => h he.symm
      simp only [setA, if_neg h, keysA, List.map_cons] at ih ⊢
      rw [ih]
      by_cases hm : k ∈ List.map Prod.fst rest
      · simp [hm, hne]
      · simp [hm, hne]

theorem mem_keysA {α : Type} (l : List (String × α)) (k : String) :
    k ∈ keysA l ↔ ∃ v, (k, v) ∈ l := by
  constructor
  · intro h
    obtain ⟨kv, hm, he⟩ := List.mem_map.mp h
    exact ⟨kv.2, by simpa [← he] using hm⟩
  · rintro ⟨v, hv⟩
    exact List.mem_map.mpr ⟨(k, v), hv, rfl⟩

/-! ## Claim C1 -/

/-- Claim C1: the claimed running→retrying→running cycles driven by the
`network_error` retry policy do not exist in the code.  Evaluating the
embedded `executePost` on a one-off job whose single platform fails with a
network error shows: the configuration (embedded from
src/config/scheduler.js) allows N = 4 attempts for `network_error`, yet the
executor invokes the publish collaborator exactly once, never enters any
retrying state, arms no retry trigger (`nextHandle` unchanged, no armed
timer remains), and removes the one-off job outright.  The spec (and the
repository's own retry configuration and README) require the retries; the
execution path ignores them. -/
theorem claim_C1_retry_policy_unused :
    (executePost envC1 sC1 "post_j1" pcC1).2 =
      ⟨.finished [("facebook", .failure "Network error: socket hang up")] false,
        ["facebook"]⟩ ∧
    (executePost envC1 sC1 "post_j1" pcC1).1 = ⟨false, [], [], [], 1⟩ ∧
    lookupA retryErrorTypes "network_error" = some ⟨4, 10000, 60000, 2⟩ ∧
    backoffDelay ⟨4, 10000, 60000, 2⟩ 1 = 10000 ∧
    backoffDelay ⟨4, 10000, 60000, 2⟩ 2 = 20000 ∧
    backoffDelay ⟨4, 10000, 60000, 2⟩ 3 = 40000 ∧
    (lookupA retryErrorTypes "content_error").map RetryPolicy.maxAttempts = some 1 := by
  refine ⟨by decide, by decide, by decide, ?_, ?_, ?_, by decide⟩
  · rw [backoffDelay]; norm_num
  · rw [backoffDelay]; norm_num
  · rw [backoffDelay]; norm_num

/-! ## Claim C2 -/

/-- Claim C2 (counterexample): `dateToCron` does not localize to the given
timezone and cannot fail.  For a timestamp whose host (UTC) components are
12:00 Jan 1 and whose `America/New_York` components are 07:00 Jan 1, the
code produces the host-localized expression `0 12 1 1 *` while the claim
requires `0 7 1 1 *`; and for an unlocalizable timezone identifier the
claim requires an `InvalidTimeSpec` failure while the code still returns
`0 12 1 1 *`. -/
theorem claim_C2_counterexample :
    instC2.localize "UTC" = some ⟨0, 12, 1, 0⟩ ∧
    dateToCron ⟨0, 12, 1, 0⟩ "America/New_York" = "0 12 1 1 *" ∧
    dateToCronSpec instC2 "America/New_York" = .ok "0 7 1 1 *" ∧
    ("0 12 1 1 *" : String) ≠ "0 7 1 1 *" ∧
    dateToCron ⟨0, 12, 1, 0⟩ "Bogus/Zone" = "0 12 1 1 *" ∧
    dateToCronSpec instC2 "Bogus/Zone" = .error "InvalidTimeSpec" := by
  refine ⟨by decide, by decide, by rfl, by decide, by decide, by rfl⟩

/-- Claim C2 (amended): `dateToCron` returns the five-field expression
built from the Date's HOST-local minute, hour, day-of-month and month
(day-of-week a wildcard, sub-minute precision discarded); the timezone
argument is ignored, so the result matches the claim's timezone-localized
expression exactly when that timezone's localization coincides with the
host's; and no failure path exists — `InvalidTimeSpec` is produced by the
spec model alone. -/
theorem claim_C2_amended :
    (∀ (d : JsDate) (tz tz2 : String), dateToCron d tz = dateToCron d tz2) ∧
    (∀ (t : Instant) (host tz : String) (d : JsDate),
      t.localize host = some d → t.localize tz = some d →
      dateToCronSpec t tz = .ok (dateToCron d host)) := by
  constructor
  · intro d tz tz2; rfl
  · intro t host tz d h1 h2
    simp [dateToCronSpec, h2, dateToCron]

/-- Claim C2 (witness): the amended theorem applied to the concrete
timestamp `instC2` with host and target timezone both UTC. -/
theorem claim_C2_witness :
    dateToCronSpec instC2 "UTC" = .ok (dateToCron ⟨0, 12, 1, 0⟩ "UTC") :=
  claim_C2_amended.2 instC2 "UTC" "UTC" ⟨0, 12, 1, 0⟩ (by decide) (by decide)

/-! ## Claim C8 -/

/-- Claim C8: every execution that begins (the shutdown flag is down, so
the job id is added to the active set) releases its identifier on every
exit path — publish success, publish failure, and internal faults thrown by
content resolution or content processing alike — because the `finally`
block always deletes it. -/
theorem claim_C8_active_identifier_released :
    ∀ (env : ExecEnv) (s : AppState) (jobId : String) (pc : PostConfig),
      s.isShuttingDown = false →
      lookupA (executePost env s jobId pc).1.activeJobs jobId = none := by
  intro env s jobId pc h
  simp only [executePost, h, Bool.false_eq_true, if_false]
  cases execCore env pc with
  | error e => simpa using lookupA_deleteA _ jobId
  | ok v => simpa using lookupA_deleteA _ jobId

/-- Claim C8 (witness): the release theorem applied to the concrete
network-failure execution of `post_j1`. -/
theorem claim_C8_witness :
    lookupA (executePost envC1 sC1 "post_j1" pcC1).1.activeJobs "post_j1" = none :=
  claim_C8_active_identifier_released envC1 sC1 "post_j1" pcC1 (by decide)

/-! ## Executor characterization lemmas -/

theorem lookupA_mem {α : Type} {l : List (String × α)} {k : String} {v : α}
    (h : lookupA l k = some v) : k ∈ keysA l := by
  induction l with
  | nil => simp [lookupA] at h
  | cons kv rest ih =>
    by_cases he : kv.1 = k
    · simp [keysA, he]
    · have hd : (decide (kv.1 = k)) = false := by simpa using he
      simp only [lookupA, List.find?_cons, hd] at h
      simp only [keysA, List.map_cons, List.mem_cons]
      exact Or.inr (ih h)

theorem executePost_fst_ok {env : ExecEnv} {pc : PostConfig}
    {r : List (String × PlatformOutcome)} {a : List String}
    (s : AppState) (j : String)
    (h : execCore env pc = .ok (r, a)) (hflag : s.isShuttingDown = false) :
    (executePost env s j pc).1 =
      { removeOneOff { s with activeJobs := setA s.activeJobs j ⟨env.now, pc⟩ } j with
        activeJobs :=
          deleteA (removeOneOff { s with activeJobs := setA s.activeJobs j ⟨env.now, pc⟩ } j).activeJobs j } := by
  simp only [executePost, hflag, Bool.false_eq_true, if_false, h]

theorem executePost_fst_error {env : ExecEnv} {pc : PostConfig} {e : String}
    (s : AppState) (j : String)
    (h : execCore env pc = .error e) (hflag : s.isShuttingDown = false) :
    (executePost env s j pc).1 =
      { s with activeJobs := deleteA (setA s.activeJobs j ⟨env.now, pc⟩) j } := by
  simp only [executePost, hflag, Bool.false_eq_true, if_false, h]

theorem executePost_snd_ok {env : ExecEnv} {pc : PostConfig}
    {r : List (String × PlatformOutcome)} {a : List String}
    (s : AppState) (j : String)
    (h : execCore env pc = .ok (r, a)) (hflag : s.isShuttingDown = false) :
    (executePost env s j pc).2 =
      ⟨.finished r (r.all (fun kv => kv.2.isSuccess)), a⟩ := by
  simp only [executePost, hflag, Bool.false_eq_true, if_false, h]

theorem executePost_snd_error {env : ExecEnv} {pc : PostConfig} {e : String}
    (s : AppState) (j : String)
    (h : execCore env pc = .error e) (hflag : s.isShuttingDown = false) :
    (executePost env s j pc).2 = ⟨.faulted e, []⟩ := by
  simp only [executePost, hflag, Bool.false_eq_true, if_false, h]

/-! ## Claim C5 -/

/-- Claim C5 (amended): a one-off (`scheduled_post`) job is removed from
the registry, its trigger stopped and never re-armed, whenever the
execution pass COMPLETES the platform loop (outcome `finished`, even with
every platform failing); but when the pass aborts with an internal fault
before the loop (content resolution or content processing throwing), the
removal step is skipped and the job stays registered and armed. -/
theorem claim_C5_amended :
    ∀ (env : ExecEnv) (s : AppState) (jobId : String) (pc : PostConfig)
      (results : List (String × PlatformOutcome)) (ok : Bool) (att : List String)
      (e : CronEntry),
      s.isShuttingDown = false →
      (executePost env s jobId pc).2 = ⟨.finished results ok, att⟩ →
      lookupA s.cronJobs jobId = some e →
      e.type = .scheduled_post →
      lookupA (executePost env s jobId pc).1.cronJobs jobId = none ∧
      (executePost env s jobId pc).1.armedTimers =
        s.armedTimers.filter (fun h => h ≠ e.job) ∧
      (executePost env s jobId pc).1.nextHandle = s.nextHandle ∧
      lookupA (executePost env s jobId pc).1.activeJobs jobId = none := by
  intro env s jobId pc results ok att e hflag hrep hlook htype
  cases hE : execCore env pc with
  | error er =>
    rw [executePost_snd_error s jobId hE hflag] at hrep
    simp at hrep
  | ok v =>
    obtain ⟨r, a⟩ := v
    rw [executePost_fst_ok s jobId hE hflag]
    have hcron : ({ s with activeJobs := setA s.activeJobs jobId ⟨env.now, pc⟩ } : AppState).cronJobs = s.cronJobs := rfl
    simp [removeOneOff, hcron, hlook, htype, lookupA_deleteA]

/-- Claim C5 (counterexample): a one-off job whose content file is missing
faults before the platform loop (the job's execution fails — terminal
`failed` in the lifecycle), yet after `executePost` returns the job is
still present in the registry and its trigger is still armed, contradicting
the claim. -/
theorem claim_C5_counterexample :
    (executePost envC5 sC5 "post_cx5" pcC5).2 =
      ⟨.faulted "ENOENT: no such file or directory", []⟩ ∧
    lookupA (executePost envC5 sC5 "post_cx5" pcC5).1.cronJobs "post_cx5" =
      some ⟨3, pcC5, .scheduled_post⟩ ∧
    3 ∈ (executePost envC5 sC5 "post_cx5" pcC5).1.armedTimers := by
  refine ⟨by decide, by decide, by decide⟩

/-- Claim C5 (witness): the amended theorem applied to the concrete
network-failure execution of `post_j1` (platform loop completed with a
failure). -/
theorem claim_C5_witness :
    lookupA (executePost envC1 sC1 "post_j1" pcC1).1.cronJobs "post_j1" = none ∧
    (executePost envC1 sC1 "post_j1" pcC1).1.armedTimers =
      sC1.armedTimers.filter (fun h => h ≠ (0 : Nat)) ∧
    (executePost envC1 sC1 "post_j1" pcC1).1.nextHandle = sC1.nextHandle ∧
    lookupA (executePost envC1 sC1 "post_j1" pcC1).1.activeJobs "post_j1" = none :=
  claim_C5_amended envC1 sC1 "post_j1" pcC1
    [("facebook", .failure "Network error: socket hang up")] false ["facebook"]
    ⟨0, pcC1, .scheduled_post⟩ (by decide) (by decide) (by decide) (by decide)

/-! ## Claim C4 -/

/-- Claim C4 (amended): re-scheduling an identifier that already exists
leaves exactly one registry entry for it, bound to the newly created
trigger — but the prior trigger is NOT stopped: `schedulePost` overwrites
the `Map` entry without calling `stop()` on the old task, so an orphaned
timer remains armed. -/
theorem claim_C4_amended :
    ∀ (env : SchedEnv) (s : AppState) (pc : PostConfig) (old : CronEntry) (d : JsDate),
      lookupA s.cronJobs (postJobId env pc) = some old →
      (keysA s.cronJobs).Nodup →
      pc.scheduledTime.bind env.parseDate = some d →
      env.cronPatternOk (dateToCron d (pc.timezone.getD "UTC")) = true →
      old.job ∈ s.armedTimers →
      old.job ≠ s.nextHandle →
      lookupA (schedulePost env s pc).cronJobs (postJobId env pc) =
        some ⟨s.nextHandle, pc, .scheduled_post⟩ ∧
      (keysA (schedulePost env s pc).cronJobs).Nodup ∧
      old.job ∈ (schedulePost env s pc).armedTimers ∧
      ∀ e2, lookupA (schedulePost env s pc).cronJobs (postJobId env pc) = some e2 →
        e2.job ≠ old.job := by
  intro env s pc old d hlook hnodup hd hcron hmem hne
  have hkey : postJobId env pc ∈ keysA s.cronJobs := lookupA_mem hlook
  simp only [schedulePost, hd, hcron, if_pos]
  refine ⟨lookupA_setA_self _ _ _, ?_, ?_, ?_⟩
  · rw [keysA_setA, if_pos hkey]
    exact hnodup
  · exact List.mem_append_left _ hmem
  · intro e2 he2
    rw [lookupA_setA_self] at he2
    cases he2
    exact fun hc => hne hc.symm

/-- Claim C4 (counterexample): re-scheduling `post_j` (old armed task 7)
yields a single registry entry bound to the new task 8, but task 7 stays in
the armed set — an orphaned timer the claim says must be stopped. -/
theorem claim_C4_counterexample :
    (schedulePost envC4 sC4 pcC4new).cronJobs =
      [("post_j", ⟨8, pcC4new, .scheduled_post⟩)] ∧
    (schedulePost envC4 sC4 pcC4new).armedTimers = [7, 8] ∧
    7 ∈ (schedulePost envC4 sC4 pcC4new).armedTimers ∧
    lookupA (schedulePost envC4 sC4 pcC4new).cronJobs "post_j" =
      some ⟨8, pcC4new, .scheduled_post⟩ ∧
    (8 : Nat) ≠ 7 := by
  refine ⟨by decide, by decide, by decide, by decide, by decide⟩

/-- Claim C4 (witness): the amended theorem applied to the concrete
re-scheduling of `post_j`. -/
theorem claim_C4_witness :
    lookupA (schedulePost envC4 sC4 pcC4new).cronJobs (postJobId envC4 pcC4new) =
      some ⟨sC4.nextHandle, pcC4new, .scheduled_post⟩ ∧
    (keysA (schedulePost envC4 sC4 pcC4new).cronJobs).Nodup ∧
    (7 : Nat) ∈ (schedulePost envC4 sC4 pcC4new).armedTimers ∧
    ∀ e2, lookupA (schedulePost envC4 sC4 pcC4new).cronJobs (postJobId envC4 pcC4new) =
      some e2 → e2.job ≠ 7 :=
  claim_C4_amended envC4 sC4 pcC4new ⟨7, pcC4old, .scheduled_post⟩ ⟨30, 9, 15, 11⟩
    (by decide) (by decide) (by decide) (by decide) (by decide) (by decide)

/-! ## Claim C6 -/

/-- Claim C6: once the shutdown flag is set no new execution begins — any
`executePost` invocation with the flag up is a pure no-op (state unchanged,
no active-set insertion, no platform attempts); `shutdown` sets the flag
(and is idempotent about it); jobs already active when shutdown starts stay
in the active set through every drain poll until they finish or the
30-poll drain budget elapses; and after `shutdown` returns the active set
has been emptied (drained or force-cleared). -/
theorem claim_C6_shutdown_drain :
    (∀ (env : ExecEnv) (s : AppState) (j : String) (pc : PostConfig),
      s.isShuttingDown = true → executePost env s j pc = (s, ⟨.skipped, []⟩)) ∧
    (∀ (f : Nat → List String) (s : AppState), (shutdown f s).isShuttingDown = true) ∧
    (∀ (env : ExecEnv) (f : Nat → List String) (s : AppState) (j : String) (pc : PostConfig),
      s.isShuttingDown = true →
      executePost env (shutdown f s) j pc = (shutdown f s, ⟨.skipped, []⟩)) ∧
    (∀ (f : Nat → List String) (init : List (String × ActiveEntry)) (J : String) (k : Nat),
      J ∈ keysA init → (∀ i, i < k → J ∉ f i) → k ≤ drainTicks →
      J ∈ keysA (activeAfter f init k)) ∧
    (∀ (f : Nat → List String) (s : AppState),
      s.isShuttingDown = false → (shutdown f s).activeJobs = []) := by
  have hshort : ∀ (env : ExecEnv) (s : AppState) (j : String) (pc : PostConfig),
      s.isShuttingDown = true → executePost env s j pc = (s, ⟨.skipped, []⟩) := by
    intro env s j pc h
    simp [executePost, h]
  have hflag : ∀ (f : Nat → List String) (s : AppState),
      (shutdown f s).isShuttingDown = true := by
    intro f s
    by_cases h : s.isShuttingDown
    · simp [shutdown, h]
    · simp [shutdown, h, stopAllCron]
  refine ⟨hshort, hflag, ?_, ?_, ?_⟩
  · intro env f s j pc _
    exact hshort env (shutdown f s) j pc (hflag f s)
  · intro f init J k hmem hnof hk
    induction k with
    | zero => simpa [activeAfter] using hmem
    | succ k ih =>
      have hk' : k ≤ drainTicks := Nat.le_of_succ_le hk
      have hnof' : ∀ i, i < k → J ∉ f i := fun i hi => hnof i (Nat.lt_succ_of_lt hi)
      have hmem' := ih hnof' hk'
      obtain ⟨v, hv⟩ := (mem_keysA _ _).mp hmem'
      refine (mem_keysA _ _).mpr ⟨v, ?_⟩
      simp only [activeAfter]
      refine List.mem_filter.mpr ⟨hv, ?_⟩
      simpa using hnof k (Nat.lt_succ_self k)
  · intro f s h
    simp [shutdown, h, stopAllCron]

/-! ## Claim C3 -/

theorem mem_keysA_setA {α : Type} (l : List (String × α)) (k q : String) (v : α) :
    q ∈ keysA (setA l k v) ↔ q ∈ keysA l ∨ q = k := by
  rw [keysA_setA]
  by_cases h : k ∈ keysA l
  · rw [if_pos h]
    constructor
    · exact Or.inl
    · rintro (hq | rfl)
      · exact hq
      · exact h
  · rw [if_neg h]
    simp

theorem nodup_keysA_setA {α : Type} (l : List (String × α)) (k : String) (v : α)
    (h : (keysA l).Nodup) : (keysA (setA l k v)).Nodup := by
  rw [keysA_setA]
  by_cases hm : k ∈ keysA l
  · rwa [if_pos hm]
  · rw [if_neg hm]
    simp [List.nodup_append, h, hm]

theorem publishLoop_keys (env : ExecEnv) (processed : List (String × PlatformContent))
    (platforms : List String) :
    ∀ (results : List (String × PlatformOutcome)) (attempts : List String),
      (∀ q, q ∈ keysA (publishLoop env processed platforms results attempts).1 ↔
        q ∈ keysA results ∨ q ∈ platforms) ∧
      ((keysA results).Nodup →
        (keysA (publishLoop env processed platforms results attempts).1).Nodup) := by
  induction platforms with
  | nil =>
    intro results attempts
    exact ⟨fun q => by simp [publishLoop], fun h => h⟩
  | cons platform rest ih =>
    intro results attempts
    have key : ∀ (v : PlatformOutcome) (att2 : List String),
        (∀ q, q ∈ keysA (publishLoop env processed rest (setA results platform v) att2).1 ↔
          q ∈ keysA results ∨ q ∈ platform :: rest) ∧
        ((keysA results).Nodup →
          (keysA (publishLoop env processed rest (setA results platform v) att2).1).Nodup) := by
      intro v att2
      obtain ⟨ihm, ihn⟩ := ih (setA results platform v) att2
      refine ⟨?_, ?_⟩
      · intro q
        rw [ihm q, mem_keysA_setA]
        simp only [List.mem_cons]
        tauto
      · intro hnd
        exact ihn (nodup_keysA_setA _ _ _ hnd)
    have hstep : ∃ (v : PlatformOutcome) (att2 : List String),
        publishStep env processed platform results attempts =
          (setA results platform v, att2) := by
      cases hL : lookupA processed platform with
      | none =>
        refine ⟨.failure undefinedReadMsg, attempts, ?_⟩
        simp [publishStep, hL]
      | some pcont =>
        cases hP : env.postToPlatform platform pcont.content
            ((pcont.images.head?).map ProcessedImage.processedPath) with
        | ok id =>
          refine ⟨.success id, attempts ++ [platform], ?_⟩
          simp [publishStep, hL, hP]
        | error e =>
          refine ⟨.failure e, attempts ++ [platform], ?_⟩
          simp [publishStep, hL, hP]
    obtain ⟨v, att2, hv⟩ := hstep
    simp only [publishLoop, hv]
    exact key v att2

theorem execCore_ok_inv {env : ExecEnv} {pc : PostConfig}
    {r : List (String × PlatformOutcome)} {a : List String}
    (h : execCore env pc = .ok (r, a)) :
    ∃ processed, (r, a) = publishLoop env processed pc.platforms [] [] := by
  unfold execCore at h
  generalize hc : (if truthy pc.file && !truthy pc.content then
      (env.readTextFile (jsBasename (pc.file.getD ""))).map some
    else .ok pc.content) = contentE at h
  cases contentE with
  | error e => simp [Bind.bind, Except.bind] at h
  | ok content =>
    simp only [Bind.bind, Except.bind] at h
    cases hp : processContent env content (pc.images.getD []) pc.platforms [] with
    | error e =>
      rw [hp] at h
      simp [Bind.bind, Except.bind] at h
    | ok processed =>
      rw [hp] at h
      simp only [Bind.bind, Except.bind, Except.ok.injEq] at h
      exact ⟨processed, h.symm⟩

/-- Claim C3 (amended): whenever one execution pass reaches the per-platform
loop (that is, shared content resolution and the content-processing step
did not throw — outcome `finished`), every platform in the list receives
exactly one success-or-error entry and the outcome map's key set equals the
platform list, regardless of individual publish failures; but a
content-processing throw for ANY single platform aborts the pass before any
publish attempt, so no outcome map is produced at all (see the
counterexample). -/
theorem claim_C3_amended :
    ∀ (env : ExecEnv) (s : AppState) (jobId : String) (pc : PostConfig)
      (results : List (String × PlatformOutcome)) (ok : Bool) (att : List String),
      s.isShuttingDown = false →
      (executePost env s jobId pc).2 = ⟨.finished results ok, att⟩ →
      (keysA results).Nodup ∧ (∀ q, q ∈ keysA results ↔ q ∈ pc.platforms) := by
  intro env s j pc results ok att hflag hrep
  cases hE : execCore env pc with
  | error e =>
    rw [executePost_snd_error s j hE hflag] at hrep
    simp at hrep
  | ok v =>
    obtain ⟨r, a⟩ := v
    rw [executePost_snd_ok s j hE hflag] at hrep
    simp only [ExecReport.mk.injEq, ExecOutcome.finished.injEq] at hrep
    obtain ⟨⟨hr, _⟩, _⟩ := hrep
    obtain ⟨processed, hpub⟩ := execCore_ok_inv hE
    have hkeys := publishLoop_keys env processed pc.platforms [] []
    have hr2 : results = (publishLoop env processed pc.platforms [] []).1 := by
      rw [← hr]
      exact congrArg Prod.fst hpub
    constructor
    · rw [hr2]
      exact hkeys.2 (by simp [keysA])
    · intro q
      rw [hr2, hkeys.1 q]
      simp [keysA]

/-- Claim C3 (counterexample): a job with platforms `[facebook, instagram]`
and a gif image: the facebook pipeline succeeds, but the content processor
throws while preparing instagram (unsupported image format — a
platform-level content failure), the whole pass faults, facebook is never
attempted (`attempts = []`), and no outcome map is produced — the claim
requires the facebook attempt to proceed and the outcome key set to equal
the platform list. -/
theorem claim_C3_counterexample :
    pcC3.platforms = ["facebook", "instagram"] ∧
    (executePost envC3 sC3 "post_cx3" pcC3).2 =
      ⟨.faulted "Unsupported format for instagram: gif", []⟩ := by
  refine ⟨by decide, by decide⟩

/-- Claim C3 (witness): the amended theorem applied to the all-success
execution of `post_w3` over both platforms. -/
theorem claim_C3_witness :
    (keysA [("facebook", PlatformOutcome.success "id_1"),
            ("instagram", PlatformOutcome.success "id_1")]).Nodup ∧
    (∀ q, q ∈ keysA [("facebook", PlatformOutcome.success "id_1"),
            ("instagram", PlatformOutcome.success "id_1")] ↔ q ∈ pcW3.platforms) :=
  claim_C3_amended envW3 sW3 "post_w3" pcW3
    [("facebook", .success "id_1"), ("instagram", .success "id_1")] true
    ["facebook", "instagram"] (by decide) (by decide)

/-! ## Claim C7 -/

theorem mem_enum_of_mem {α : Type} {l : List α} {x : α} (h : x ∈ l) :
    ∃ i, (i, x) ∈ l.enum := by
  obtain ⟨i, hi, he⟩ := List.getElem_of_mem h
  exact ⟨i, by simpa [List.mem_enum_iff_getElem?] using List.getElem?_eq_some.mpr ⟨hi, he⟩⟩

theorem validateSchedulePost_nil {dt : String → Option String → DTResult}
    {p : PostConfig} {i : Nat}
    (h : (validateSchedulePost dt p i).1 = []) :
    (truthy p.content = true ∨ truthy p.file = true) ∧
    truthy p.scheduledTime = true ∧
    p.platforms ≠ [] ∧
    (∀ q ∈ p.platforms, q = "facebook" ∨ q = "instagram") := by
  unfold validateSchedulePost at h
  simp only [List.append_eq_nil] at h
  obtain ⟨⟨⟨hcontent, htime⟩, hplat⟩, _⟩ := h
  refine ⟨?_, ?_, ?_, ?_⟩
  · by_cases h1 : truthy p.content = true
    · exact Or.inl h1
    · have h2 : truthy p.content = false := by simpa using h1
      have h3 : truthy p.file = true := by
        by_contra h4
        have h5 : truthy p.file = false := by simpa using h4
        rw [if_pos (by simp [h2, h5])] at hcontent
        simp at hcontent
      exact Or.inr h3
  · by_cases ht : truthy p.scheduledTime = true
    · exact ht
    · rw [if_pos (by simpa using ht)] at htime
      exact absurd htime (by simp)
  · intro hnil
    rw [if_pos (by simp [hnil])] at hplat
    exact absurd hplat (by simp)
  · intro q hq
    have hne : p.platforms.isEmpty = false := by
      cases hp : p.platforms with
      | nil => rw [hp] at hq; simp at hq
      | cons a t => simp
    rw [if_neg (by simp [hne])] at hplat
    by_cases hv : (validatePlatforms p.platforms).1 = true
    · unfold validatePlatforms at hv
      rw [if_neg (by simp [hne])] at hv
      by_cases hinv : (p.platforms.filter
          (fun r => !(r = "facebook" || r = "instagram"))).isEmpty = true
      · have hnil := List.isEmpty_iff.mp hinv
        have hq2 := List.filter_eq_nil_iff.mp hnil q hq
        have himp : ¬q = "facebook" → q = "instagram" := by simpa using hq2
        exact or_iff_not_imp_left.mpr himp
      · rw [if_neg hinv] at hv
        simp at hv
    · rw [if_pos (by simpa using hv)] at hplat
      exact absurd hplat (by simp)

/-- Claim C7 (amended): startup validation examines only the `posts` array
(recurring-template descriptors are never validated — the result is
invariant under arbitrary changes to `recurring`); a document that passes
validation has, for every post, content-or-file present, a non-empty
platform list drawn from {facebook, instagram}, and a PRESENT scheduled
time — a trigger pattern does not substitute for it (see the
counterexample); and a document failing validation makes
`loadScheduleConfig` throw, aborting startup. -/
theorem claim_C7_amended :
    (∀ (dt : String → Option String → DTResult) (vtz : String → Bool)
      (cfg : ScheduleDoc) (r : Option (List PostConfig)),
      validateScheduleConfig dt vtz (some { cfg with recurring := r }) =
        validateScheduleConfig dt vtz (some cfg)) ∧
    (∀ (dt : String → Option String → DTResult) (vtz : String → Bool)
      (doc : ScheduleDoc) (posts : List PostConfig),
      doc.posts = some posts →
      (validateScheduleConfig dt vtz (some doc)).isValid = true →
      ∀ p ∈ posts,
        (truthy p.content = true ∨ truthy p.file = true) ∧
        truthy p.scheduledTime = true ∧
        p.platforms ≠ [] ∧
        (∀ q ∈ p.platforms, q = "facebook" ∨ q = "instagram")) ∧
    (∀ (dt : String → Option String → DTResult) (vtz : String → Bool)
      (cfg : Option ScheduleDoc),
      (validateScheduleConfig dt vtz cfg).isValid = false →
      ∃ m, loadScheduleConfig (.ok cfg) dt vtz = .error m) := by
  refine ⟨?_, ?_, ?_⟩
  · intro dt vtz cfg r
    obtain ⟨po, st, re⟩ := cfg
    rfl
  · intro dt vtz doc posts hposts hvalid p hp
    obtain ⟨po, st, re⟩ := doc
    replace hposts : po = some posts := hposts
    subst hposts
    simp only [validateScheduleConfig] at hvalid
    simp only [List.isEmpty_iff, List.append_eq_nil] at hvalid
    obtain ⟨hperr, _⟩ := hvalid
    obtain ⟨i, hi⟩ := mem_enum_of_mem hp
    have hmem : (validateSchedulePost dt p i).1 ∈
        ((posts.enum.map (fun iv => validateSchedulePost dt iv.2 iv.1)).map Prod.fst) := by
      exact List.mem_map.mpr ⟨validateSchedulePost dt p i,
        List.mem_map.mpr ⟨(i, p), hi, rfl⟩, rfl⟩
    have hnil : (validateSchedulePost dt p i).1 = [] := by
      have := List.flatten_eq_nil_iff.mp hperr
      exact this _ hmem
    exact validateSchedulePost_nil hnil
  · intro dt vtz cfg h
    refine ⟨"Invalid schedule configuration: " ++
      String.intercalate ", " (validateScheduleConfig dt vtz cfg).errors, ?_⟩
    simp [loadScheduleConfig, Bind.bind, Except.bind, h]

/-- Claim C7 (counterexample): a document whose only post carries a trigger
pattern (`cronPattern`) but no `scheduledTime` has none of the claim's
three defect classes, yet validation rejects it (so startup aborts); and a
document whose only defect — an empty platform list — sits in a
recurring-template descriptor passes validation, although the claim
requires it to be rejected. -/
theorem claim_C7_counterexample :
    pcC7cron.cronPattern = some "0 9 * * *" ∧
    truthy pcC7cron.content = true ∧
    pcC7cron.platforms = ["facebook"] ∧
    (validateScheduleConfig dtOk vtzOk (some docC7cron)).isValid = false ∧
    (validateScheduleConfig dtOk vtzOk (some docC7cron)).errors =
      ["Post 0: Missing \"scheduledTime\""] ∧
    (∃ m, loadScheduleConfig (.ok (some docC7cron)) dtOk vtzOk = .error m) ∧
    docC7rec.recurring = some [recC7bad] ∧
    recC7bad.platforms = [] ∧
    (validateScheduleConfig dtOk vtzOk (some docC7rec)).isValid = true := by
  refine ⟨by decide, by decide, by decide, by decide, by decide, ⟨_, by rfl⟩,
    by decide, by decide, by decide⟩

/-- Claim C7 (witness): the amended theorem applied to the defect-free
document `docW7`, which passes validation. -/
theorem claim_C7_witness :
    (truthy pcW7.content = true ∨ truthy pcW7.file = true) ∧
    truthy pcW7.scheduledTime = true ∧
    pcW7.platforms ≠ [] ∧
    (∀ q ∈ pcW7.platforms, q = "facebook" ∨ q = "instagram") :=
  claim_C7_amended.2.1 dtOk vtzOk docW7 [pcW7] rfl (by decide) pcW7 (by decide)

/-! ## Claim C9 -/

theorem lookupA_mapValues {α β : Type} (f : α → β) (l : List (String × α)) (k : String) :
    lookupA (mapValues f l) k = (lookupA l k).map f := by
  induction l with
  | nil => rfl
  | cons kv rest ih =>
    by_cases h : kv.1 = k
    · simp [mapValues, lookupA, List.find?_cons, h]
    · simpa [mapValues, lookupA, List.find?_cons, h] using ih

theorem setA_mapValues {α β : Type} (f : α → β) (l : List (String × α))
    (k : String) (v : α) :
    setA (mapValues f l) k (f v) = mapValues f (setA l k v) := by
  induction l with
  | nil => rfl
  | cons kv rest ih =>
    by_cases h : kv.1 = k
    · simp [mapValues, setA, h]
    · simpa [mapValues, setA, h] using ih

theorem deleteA_mapValues {α β : Type} (f : α → β) (l : List (String × α)) (k : String) :
    deleteA (mapValues f l) k = mapValues f (deleteA l k) := by
  induction l with
  | nil => rfl
  | cons kv rest ih =>
    by_cases h : kv.1 = k
    · simpa [mapValues, deleteA, List.filter_cons, h] using ih
    · simpa [mapValues, deleteA, List.filter_cons, h] using ih

theorem removeOneOff_erase (s : AppState) (j : String) :
    removeOneOff (eraseState s) j = eraseState (removeOneOff s j) := by
  obtain ⟨fl, aj, cj, arm, nh⟩ := s
  simp only [removeOneOff, eraseState, lookupA_mapValues]
  cases hL : lookupA cj j with
  | none => rfl
  | some e =>
    simp only [Option.map_some']
    by_cases ht : e.type = JobType.scheduled_post
    · have ht2 : (eraseCron e).type = JobType.scheduled_post := ht
      simp only [ht, ht2, if_pos]
      simp [eraseState, eraseCron, deleteA_mapValues]
    · have ht2 : ¬(eraseCron e).type = JobType.scheduled_post := ht
      simp only [if_neg ht, if_neg ht2]

theorem executePost_erase (env : ExecEnv) (s : AppState) (j : String) (pc : PostConfig) :
    executePost env (eraseState s) j (erasePriority pc) =
      (eraseState (executePost env s j pc).1, (executePost env s j pc).2) := by
  have hcore : execCore env (erasePriority pc) = execCore env pc := rfl
  have hflagE : (eraseState s).isShuttingDown = s.isShuttingDown := rfl
  by_cases hflag : s.isShuttingDown = true
  · simp [executePost, hflagE, hflag]
  · have hflag2 : s.isShuttingDown = false := by simpa using hflag
    have hflag3 : (eraseState s).isShuttingDown = false := hflag2
    have hact : setA (eraseState s).activeJobs j ⟨env.now, erasePriority pc⟩ =
        mapValues eraseActive (setA s.activeJobs j ⟨env.now, pc⟩) := by
      have : (⟨env.now, erasePriority pc⟩ : ActiveEntry) = eraseActive ⟨env.now, pc⟩ := rfl
      rw [this]
      exact setA_mapValues eraseActive s.activeJobs j ⟨env.now, pc⟩
    cases hE : execCore env pc with
    | error e =>
      have hE2 : execCore env (erasePriority pc) = .error e := by rw [hcore, hE]
      apply Prod.ext
      · rw [executePost_fst_error (eraseState s) j hE2 hflag3,
          executePost_fst_error s j hE hflag2]
        obtain ⟨fl, aj, cj, arm, nh⟩ := s
        simp only [eraseState] at hact ⊢
        simp [hact, deleteA_mapValues]
      · rw [executePost_snd_error (eraseState s) j hE2 hflag3,
          executePost_snd_error s j hE hflag2]
    | ok v =>
      obtain ⟨r, a⟩ := v
      have hE2 : execCore env (erasePriority pc) = .ok (r, a) := by rw [hcore, hE]
      apply Prod.ext
      · rw [executePost_fst_ok (eraseState s) j hE2 hflag3,
          executePost_fst_ok s j hE hflag2]
        have hs1 : ({ eraseState s with
            activeJobs := setA (eraseState s).activeJobs j ⟨env.now, erasePriority pc⟩ } : AppState) =
            eraseState { s with activeJobs := setA s.activeJobs j ⟨env.now, pc⟩ } := by
          obtain ⟨fl, aj, cj, arm, nh⟩ := s
          simp only [eraseState] at hact ⊢
          simp [hact]
        rw [hs1, removeOneOff_erase]
        generalize removeOneOff { s with activeJobs := setA s.activeJobs j ⟨env.now, pc⟩ } j = t
        obtain ⟨fl, aj, cj, arm, nh⟩ := t
        simp [eraseState, deleteA_mapValues]
      · rw [executePost_snd_ok (eraseState s) j hE2 hflag3,
          executePost_snd_ok s j hE hflag2]

theorem schedulePost_erase (env : SchedEnv) (s : AppState) (pc : PostConfig) :
    schedulePost env (eraseState s) (erasePriority pc) =
      eraseState (schedulePost env s pc) := by
  obtain ⟨fl, aj, cj, arm, nh⟩ := s
  obtain ⟨i, c, f, pl, im, st, cp, tz, pr, va⟩ := pc
  simp only [schedulePost, erasePriority, postJobId, eraseState]
  cases hd : st.bind env.parseDate with
  | none => rfl
  | some d =>
    simp only [hd]
    by_cases hc : env.cronPatternOk (dateToCron d (tz.getD "UTC")) = true
    · simp only [hc, if_pos]
      have hent : (⟨nh, ⟨i, c, f, pl, im, st, cp, tz, none, va⟩, .scheduled_post⟩ : CronEntry) =
          eraseCron ⟨nh, ⟨i, c, f, pl, im, st, cp, tz, pr, va⟩, .scheduled_post⟩ := rfl
      simp only [eraseState, hent, setA_mapValues]
    · simp [hc]

/-- Document-level lift: scheduling two post lists that agree after
priority erasure from states that agree after erasure leaves states that
agree after erasure. -/
theorem scheduleAllPosts_erase (env : SchedEnv) :
    ∀ {posts posts2 : List PostConfig},
    List.Forall₂ (fun a b => erasePriority a = erasePriority b) posts posts2 →
    ∀ (s s2 : AppState), eraseState s = eraseState s2 →
    eraseState (scheduleAllPosts env s posts) = eraseState (scheduleAllPosts env s2 posts2) := by
  intro posts posts2 hf
  induction hf with
  | nil =>
    intro s s2 hs
    simpa [scheduleAllPosts] using hs
  | @cons a b l1 l2 hab htail ih =>
    intro s s2 hs
    simp only [scheduleAllPosts, List.foldl_cons]
    apply ih
    calc eraseState (schedulePost env s a)
        = schedulePost env (eraseState s) (erasePriority a) := (schedulePost_erase env s a).symm
      _ = schedulePost env (eraseState s2) (erasePriority b) := by rw [hs, hab]
      _ = eraseState (schedulePost env s2 b) := schedulePost_erase env s2 b

/-- Claim C9: the priority label is informational only.  For any two
descriptors (and any two schedule-document post lists) that differ only in
priority labels, and any two states equal up to stored priority labels:
scheduling arms the same timers with the same handles and produces
registries equal up to the stored priority field; execution produces
LITERALLY the same report (same outcome map, same attempt list) and final
states equal up to the stored priority field. -/
theorem claim_C9_priority_noninterference :
    ∀ (senv : SchedEnv) (env : ExecEnv) (s s2 : AppState) (pc pc2 : PostConfig)
      (j : String) (posts posts2 : List PostConfig),
      eraseState s = eraseState s2 →
      erasePriority pc = erasePriority pc2 →
      List.Forall₂ (fun a b => erasePriority a = erasePriority b) posts posts2 →
      (eraseState (schedulePost senv s pc) = eraseState (schedulePost senv s2 pc2) ∧
       (schedulePost senv s pc).armedTimers = (schedulePost senv s2 pc2).armedTimers ∧
       (schedulePost senv s pc).nextHandle = (schedulePost senv s2 pc2).nextHandle) ∧
      ((executePost env s j pc).2 = (executePost env s2 j pc2).2 ∧
       eraseState (executePost env s j pc).1 = eraseState (executePost env s2 j pc2).1) ∧
      eraseState (scheduleAllPosts senv s posts) =
        eraseState (scheduleAllPosts senv s2 posts2) := by
  intro senv env s s2 pc pc2 j posts posts2 hs hp hf
  have hsched : eraseState (schedulePost senv s pc) = eraseState (schedulePost senv s2 pc2) :=
    calc eraseState (schedulePost senv s pc)
        = schedulePost senv (eraseState s) (erasePriority pc) := (schedulePost_erase senv s pc).symm
      _ = schedulePost senv (eraseState s2) (erasePriority pc2) := by rw [hs, hp]
      _ = eraseState (schedulePost senv s2 pc2) := schedulePost_erase senv s2 pc2
  refine ⟨⟨hsched, ?_, ?_⟩, ⟨?_, ?_⟩, scheduleAllPosts_erase senv hf s s2 hs⟩
  · have h2 := congrArg AppState.armedTimers hsched
    exact h2
  · have h2 := congrArg AppState.nextHandle hsched
    exact h2
  · have h1 := congrArg Prod.snd (executePost_erase env s j pc)
    have h2 := congrArg Prod.snd (executePost_erase env s2 j pc2)
    calc (executePost env s j pc).2
        = (executePost env (eraseState s) j (erasePriority pc)).2 := h1.symm
      _ = (executePost env (eraseState s2) j (erasePriority pc2)).2 := by rw [hs, hp]
      _ = (executePost env s2 j pc2).2 := h2
  · have h1 := congrArg Prod.fst (executePost_erase env s j pc)
    have h2 := congrArg Prod.fst (executePost_erase env s2 j pc2)
    calc eraseState (executePost env s j pc).1
        = (executePost env (eraseState s) j (erasePriority pc)).1 := h1.symm
      _ = (executePost env (eraseState s2) j (erasePriority pc2)).1 := by rw [hs, hp]
      _ = eraseState (executePost env s2 j pc2).1 := h2

/-- Claim C9 (witness): the noninterference theorem applied to the two
concrete descriptors that differ only in their priority labels. -/
theorem claim_C9_witness :
    (eraseState (schedulePost envC4 sEmpty pcC9high) =
       eraseState (schedulePost envC4 sEmpty pcC9low) ∧
     (schedulePost envC4 sEmpty pcC9high).armedTimers =
       (schedulePost envC4 sEmpty pcC9low).armedTimers ∧
     (schedulePost envC4 sEmpty pcC9high).nextHandle =
       (schedulePost envC4 sEmpty pcC9low).nextHandle) ∧
    ((executePost envW3 sEmpty "post_p9" pcC9high).2 =
       (executePost envW3 sEmpty "post_p9" pcC9low).2 ∧
     eraseState (executePost envW3 sEmpty "post_p9" pcC9high).1 =
       eraseState (executePost envW3 sEmpty "post_p9" pcC9low).1) ∧
    eraseState (scheduleAllPosts envC4 sEmpty [pcC9high]) =
      eraseState (scheduleAllPosts envC4 sEmpty [pcC9low]) :=
  claim_C9_priority_noninterference envC4 envW3 sEmpty sEmpty pcC9high pcC9low
    "post_p9" [pcC9high] [pcC9low] rfl (by decide)
    (List.Forall₂.cons (by decide) List.Forall₂.nil)

/-! ## Claim C10 -/

theorem isPrefixOf_eq_true {p s : List Char} :
    p.isPrefixOf s = true ↔ ∃ t, s = p ++ t := by
  induction p generalizing s with
  | nil => simp [List.isPrefixOf]
  | cons a as ih =>
    cases s with
    | nil => simp [List.isPrefixOf]
    | cons b bs =>
      simp only [List.isPrefixOf, Bool.and_eq_true, beq_iff_eq, ih]
      constructor
      · rintro ⟨rfl, t, rfl⟩
        exact ⟨t, rfl⟩
      · rintro ⟨t, ht⟩
        simp only [List.cons_append, List.cons.injEq] at ht
        exact ⟨ht.1.symm, t, ht.2⟩

theorem findFirst_none_no_occ {pat : List Char} (hpat : pat ≠ []) :
    ∀ {s : List Char}, findFirst s pat = none → ¬ ∃ a b, s = a ++ pat ++ b := by
  intro s
  induction s with
  | nil =>
    intro _
    rintro ⟨a, b, hab⟩
    have hab2 := hab.symm
    simp only [List.append_eq_nil] at hab2
    exact hpat (by tauto)
  | cons c cs ih =>
    intro h
    by_cases hpre : pat.isPrefixOf (c :: cs) = true
    · rw [findFirst, if_pos hpre] at h
      simp at h
    · have hpre2 : pat.isPrefixOf (c :: cs) = false := Bool.eq_false_iff.mpr hpre
      rw [findFirst, hpre2] at h
      simp only [Bool.false_eq_true, if_false, Option.map_eq_none'] at h
      rintro ⟨a, b, hab⟩
      cases a with
      | nil =>
        exact hpre (isPrefixOf_eq_true.mpr ⟨b, by simpa using hab⟩)
      | cons a0 a1 =>
        simp only [List.cons_append, List.cons.injEq] at hab
        exact ih h ⟨a1, b, hab.2⟩

theorem findFirst_some_split :
    ∀ {s pat a b : List Char}, findFirst s pat = some (a, b) →
      FirstMatchAt pat s a b := by
  intro s
  induction s with
  | nil =>
    intro pat a b h
    by_cases hpre : pat.isPrefixOf ([] : List Char) = true
    · obtain ⟨t, ht⟩ := isPrefixOf_eq_true.mp hpre
      have hpat : pat = [] := by
        have := ht.symm
        simp only [List.append_eq_nil] at this
        exact this.1
      rw [findFirst, if_pos hpre] at h
      simp only [Option.some.injEq, Prod.mk.injEq] at h
      obtain ⟨ha, hb⟩ := h
      subst ha
      constructor
      · simp [hpat, ← hb]
      · intro a2 b2 _
        exact Nat.zero_le _
    · have hpre2 : pat.isPrefixOf ([] : List Char) = false := Bool.eq_false_iff.mpr hpre
      rw [findFirst, hpre2] at h
      simp at h
  | cons c cs ih =>
    intro pat a b h
    by_cases hpre : pat.isPrefixOf (c :: cs) = true
    · rw [findFirst, if_pos hpre] at h
      obtain ⟨t, ht⟩ := isPrefixOf_eq_true.mp hpre
      simp only [Option.some.injEq, Prod.mk.injEq] at h
      obtain ⟨ha, hb⟩ := h
      subst ha
      constructor
      · rw [← hb, ht, List.drop_left]
        simp
      · intro a2 b2 _
        exact Nat.zero_le _
    · have hpre2 : pat.isPrefixOf (c :: cs) = false := Bool.eq_false_iff.mpr hpre
      rw [findFirst, hpre2] at h
      simp only [Bool.false_eq_true, if_false] at h
      cases hf : findFirst cs pat with
      | none => rw [hf] at h; simp at h
      | some p =>
        obtain ⟨a1, b1⟩ := p
        rw [hf] at h
        simp only [Option.map_some', Option.some.injEq, Prod.mk.injEq] at h
        obtain ⟨ha, hb⟩ := h
        obtain ⟨hsplit, hmin⟩ := ih hf
        subst ha
        subst hb
        constructor
        · simp [hsplit]
        · intro a2 b2 h2
          cases a2 with
          | nil =>
            exact absurd (isPrefixOf_eq_true.mpr ⟨b2, by simpa using h2⟩) hpre
          | cons a0 a1' =>
            simp only [List.cons_append, List.cons.injEq] at h2
            have := hmin a1' b2 h2.2
            simp only [List.length_cons]
            omega

theorem replaceFirst_spec (pat rep : List Char) (hpat : pat ≠ []) :
    ∀ s, ReplacesFirstSpec pat rep s (replaceFirst s pat rep) := by
  intro s
  cases hf : findFirst s pat with
  | none =>
    have heq : replaceFirst s pat rep = s := by
      rw [replaceFirst, hf]
    rw [heq]
    exact Or.inl ⟨findFirst_none_no_occ hpat hf, rfl⟩
  | some p =>
    obtain ⟨a, b⟩ := p
    right
    refine ⟨a, b, findFirst_some_split hf, ?_⟩
    rw [replaceFirst, hf]

theorem processTemplateGo_chain (pick : Nat → Nat → Nat)
    (hpick : ∀ i n, 0 < n → pick i n < n) :
    ∀ (vars : List (String × JsVal)) (i : Nat) (s : List Char),
      TemplateChain pick i s vars (processTemplateGo pick i s vars) := by
  intro vars
  induction vars with
  | nil => intro i s; exact TemplateChain.nil i s
  | cons kv rest ih =>
    intro i s
    obtain ⟨key, v⟩ := kv
    cases v with
    | other => exact TemplateChain.skipStep i s _ key rest (ih (i + 1) s)
    | arr values =>
      have hplace : placeholder key ≠ [] := by simp [placeholder]
      refine TemplateChain.arrStep i s _ _ key values rest
        ((values.get? (pick i values.length)).getD "undefined") ?_
        (replaceFirst_spec (placeholder key)
          ((values.get? (pick i values.length)).getD "undefined").data hplace s)
        (ih (i + 1) _)
      cases values with
      | nil => exact Or.inr ⟨rfl, rfl⟩
      | cons x xs =>
        left
        refine ⟨by simp, ?_⟩
        have hlt : pick i (x :: xs).length < (x :: xs).length :=
          hpick i _ (by simp)
        rw [List.get?_eq_get hlt]
        simp only [Option.getD_some]
        exact List.get_mem (x :: xs) _ _

/-- Claim C10 (amended): template substitution processes the variable
entries sequentially in map order against the current string; each
array-valued entry rewrites AT MOST the first occurrence of its
`\x7bname\x7d` placeholder — the replacement string being an element of the
candidate array when the array is non-empty, but the literal string
`undefined` (the JS coercion of `values[...]` on an empty array) when it
is empty, and the inserted text being that replacement string expanded by
the JS GetSubstitution rules (`$$`, `$&`, `$` + backquote, `$'`) against
the match — and all remaining text, second and later occurrences,
non-array values and unlisted placeholders included, is left unchanged at
each step. -/
theorem claim_C10_amended :
    ∀ (pick : Nat → Nat → Nat),
      (∀ i n, 0 < n → pick i n < n) →
      ∀ (content : String) (vars : List (String × JsVal)),
        TemplateChain pick 0 content.data vars (processTemplate pick content vars).data := by
  intro pick hpick content vars
  exact processTemplateGo_chain pick hpick vars 0 content.data

/-- Claim C10 (counterexample): on a variable mapped to the EMPTY candidate
array, the code substitutes the literal string `undefined` (JS coerces
`values[0]` = `undefined` inside `replace`) instead of leaving the
placeholder unchanged or using an element of the array — at this input the
claim as stated is false.  Likewise, a candidate element containing a
replacement pattern is not inserted verbatim: `$&` re-inserts the matched
placeholder, so with candidate array `["$&"]` the output keeps
`\x7bcity\x7d` instead of becoming the element `$&`.  The last conjunct
pins the behavior the claim gets right: only the first occurrence is
touched. -/
theorem claim_C10_counterexample :
    processTemplate pick0 "\x7bx\x7d" [("x", JsVal.arr [])] = "undefined" ∧
    ("undefined" : String) ≠ "\x7bx\x7d" ∧
    processTemplate pick0 "price \x7bcity\x7d" [("city", JsVal.arr ["$&"])] =
      "price \x7bcity\x7d" ∧
    ("price \x7bcity\x7d" : String) ≠ "price $&" ∧
    processTemplate pick0 "hello \x7bcity\x7d and \x7bcity\x7d"
      [("city", JsVal.arr ["Paris"])] = "hello Paris and \x7bcity\x7d" := by
  refine ⟨by decide, by decide, by decide, by decide, by decide⟩

/-- Claim C10 (witness): the amended theorem applied to the single-variable
template with the always-zero random source. -/
theorem claim_C10_witness :
    TemplateChain pick0 0 ("hello \x7bcity\x7d").data [("city", JsVal.arr ["Paris"])]
      (processTemplate pick0 "hello \x7bcity\x7d" [("city", JsVal.arr ["Paris"])]).data :=
  claim_C10_amended pick0 (fun i n h => h) "hello \x7bcity\x7d"
    [("city", JsVal.arr ["Paris"])]

/-- Claim C6 (witness): the theorem applied to the concrete scenario: the
flagged state blocks the network-failure execution, and a job `J` that
never finishes is still active after 30 drain polls. -/
theorem claim_C6_witness :
    executePost envC1 ⟨true, [], [], [], 0⟩ "post_j1" pcC1 =
      (⟨true, [], [], [], 0⟩, ⟨.skipped, []⟩) ∧
    "J" ∈ keysA (activeAfter (fun _ => []) [("J", ⟨0, pcC1⟩)] drainTicks) :=
  ⟨claim_C6_shutdown_drain.1 envC1 ⟨true, [], [], [], 0⟩ "post_j1" pcC1 (by decide),
   claim_C6_shutdown_drain.2.2.2.1 (fun _ => []) [("J", ⟨0, pcC1⟩)] "J" drainTicks
     (by decide) (fun i _ => by simp) (Nat.le_refl _)⟩

end SSched
